import Mathlib

/-!
Verification of the migration engine in `migrate/migrate.go` of the
`rickbassham/database` repository.

The engine code (`migrate.go`) is embedded directly.  The `database`
package itself (the `Database`/`Tx` capability consumed by the engine) is
not part of the sources; its semantics are modelled from the spec's
description of the capability (section 6): named statements are executed
either directly against the database (immediately committed) or inside a
supplied transaction handle (committed only when the transaction commits).
Fallible external operations (reading the dbVersion table, beginning a
transaction, running a migration body, inserting a row, committing,
rolling back) are driven by explicit fault flags supplied per call.
-/

deriving instance DecidableEq for Except

namespace Migrate

/-- Go errors built by `errors.New` / `fmt.Errorf("label: %w", err)`:
either a base error message or a wrapping of an inner error. -/
inductive GoErr where
  | base (msg : String)
  | wrap (label : String) (inner : GoErr)
deriving DecidableEq

/-- Models `errors.Is`: unwrap the `%w` chain down to the base message. -/
def GoErr.isBase : GoErr → String → Bool
  | .base s, t => s = t
  | .wrap _ e, t => e.isBase t

/-- `ErrUnknownMigrationType` (migrate.go line 28). -/
def ErrUnknownMigrationType : String := "unknown migration type"

/-- `ErrInvalidMigrationFileName` (migrate.go line 31). -/
def ErrInvalidMigrationFileName : String := "invalid migration file name"

/-- `ErrInvalidPluginMigration` (migrate.go line 34). -/
def ErrInvalidPluginMigration : String := "invalid plugin migration"

/-! ### The file-name regex

`fileNameRegex = regexp.MustCompile((\d+)_(.*?)\.(sql|so))` (migrate.go
line 253), used through `FindStringSubmatch` on the joined path.  The
pattern is unanchored, `\d+` is greedy, `(.*?)` is lazy and `.` does not
match a newline.  `FindStringSubmatch` returns the leftmost match; the
code only uses group 1 (the digit run). -/

def isDigitCh (c : Char) : Bool := '0' ≤ c && c ≤ '9'

/-- Does the remainder of the input start with the literal `\.(sql|so)`
part of the pattern (a dot followed by `sql` or `so`)? -/
def dotSqlSo : List Char → Bool
  | '.' :: 's' :: 'q' :: 'l' :: _ => true
  | '.' :: 's' :: 'o' :: _ => true
  | _ => false

/-- The lazy `(.*?)\.(sql|so)` tail: succeed at the earliest position
where `\.(sql|so)` matches, consuming only non-newline characters. -/
def scanLazy : List Char → Bool
  | [] => false
  | c :: rest => if dotSqlSo (c :: rest) then true
      else if c = '\n' then false else scanLazy rest

/-- Numeric value of a digit run. -/
def digitsVal (l : List Char) : Nat :=
  l.foldl (fun acc c => acc * 10 + (c.toNat - 48)) 0

/-- Try to match the whole pattern starting exactly here: a maximal
nonempty digit run, an underscore, then the lazy tail.  Returns the
numeric value of the digit group on success. -/
def matchAt (l : List Char) : Option Nat :=
  let ds := l.takeWhile isDigitCh
  match l.dropWhile isDigitCh with
  | '_' :: tail => if ds.isEmpty then none
      else if scanLazy tail then some (digitsVal ds) else none
  | _ => none

/-- Leftmost match of `fileNameRegex`, returning the digit group
(group 1) as a number, i.e. the submatch the code consumes. -/
def findVersionDigits : List Char → Option Nat
  | [] => none
  | c :: rest =>
    match matchAt (c :: rest) with
    | some v => some v
    | none => findVersionDigits rest

/-- `strconv.Atoi` with its error ignored, as in
`version, _ := strconv.Atoi(matches[1])`: on a nonempty digit string it
yields the value, clamped to the maximum int64 on range overflow
(ParseInt returns the maximum magnitude integer together with ErrRange,
and the error is discarded). -/
def goAtoi (n : Nat) : Int :=
  if n ≤ 9223372036854775807 then (n : Int) else 9223372036854775807

/-! ### Migrations -/

/-- The `Migration` interface together with its concrete kinds:
`SQLMigration` (path, statement, version), `PluginMigration`
(path, version; its loaded runner is opaque to the engine) and
user-supplied custom migrations handed to `AddMigration`.  The engine
only ever reads `Version()` and invokes the opaque `Run`. -/
inductive Migration where
  | sql (path : String) (statement : String) (version : Int)
  | plugin (path : String) (version : Int)
  | custom (version : Int)
deriving DecidableEq

/-- `Version()` for each migration kind (migrate.go lines 305, 348). -/
def Migration.Version : Migration → Int
  | .sql _ _ v => v
  | .plugin _ v => v
  | .custom v => v

/-- A directory entry as delivered by `ioutil.ReadDir`, together with the
outcome of the external operations the loader performs on it: whether
`os.Open`+`ReadAll` succeed, and whether `plugin.Open`, the `Runner`
symbol lookup and the `Runner` type assertion succeed. -/
structure DirEntry where
  name : String
  content : String
  readable : Bool
  pluginOpenOk : Bool
  pluginLookupOk : Bool
  pluginIsRunner : Bool
deriving DecidableEq

/-- `path.Ext` on an entry name (no slashes in directory entry names):
the suffix starting at the final dot, or empty when there is no dot. -/
def pathExt (name : String) : String :=
  match (name.toList.reverse.takeWhile (fun c => c ≠ '.')), name.toList.reverse.dropWhile (fun c => c ≠ '.') with
  | _, [] => ""
  | kept, _ => String.mk ('.' :: kept.reverse)

/-- `strings.ToLower` (ASCII; the claims only involve ASCII names). -/
def toLowerStr (s : String) : String := String.mk (s.toList.map Char.toLower)

/-- `path.Join(folder, name)` for a clean nonempty folder path with no
trailing slash (the only shape the loader ever joins). -/
def pathJoin (folder name : String) : String := folder ++ "/" ++ name

/-- `NewSQLMigrationFile` (migrate.go lines 266-289): match the regex
against the path, then open and read the file; the body text becomes the
statement verbatim. -/
def NewSQLMigrationFile (p : String) (content : String) (readable : Bool) :
    Except GoErr Migration :=
  match findVersionDigits p.toList with
  | none => .error (.base ErrInvalidMigrationFileName)
  | some n =>
    if readable then .ok (.sql p content (goAtoi n))
    else .error (.base "read file error")

/-- `NewPluginMigration` (migrate.go lines 310-340): match the regex
against the path, then `plugin.Open`, `Lookup("Runner")` and the
`Runner` type assertion in that order. -/
def NewPluginMigration (p : String) (e : DirEntry) : Except GoErr Migration :=
  match findVersionDigits p.toList with
  | none => .error (.base ErrInvalidMigrationFileName)
  | some n =>
    if !e.pluginOpenOk then .error (.base "plugin open error")
    else if !e.pluginLookupOk then .error (.base "plugin lookup error")
    else if !e.pluginIsRunner then .error (.base ErrInvalidPluginMigration)
    else .ok (.plugin p (goAtoi n))

/-! ### The Service and the loader -/

/-- `Service` (migrate.go lines 38-43): the migration list and the
last-error slot.  The borrowed `*database.Database` handle is implicit;
its operations appear as explicit state/fault parameters. -/
structure Service where
  migrations : List Migration
  err : Option GoErr
deriving DecidableEq

/-- `Err()` (migrate.go lines 88-90). -/
def Service.Err (svc : Service) : Option GoErr := svc.err

/-- `AddMigration` (migrate.go lines 181-183): plain append. -/
def Service.AddMigration (svc : Service) (m : Migration) : Service :=
  { svc with migrations := svc.migrations ++ [m] }

/-- One step of `sort.SliceStable(..., version ascending)`: insert after
every element with a less-or-equal version (stable insertion). -/
def insertAsc (m : Migration) : List Migration → List Migration
  | [] => [m]
  | x :: xs => if x.Version ≤ m.Version then x :: insertAsc m xs
      else m :: x :: xs

/-- `sort.SliceStable(svc.migrations, version ascending)` (migrate.go
lines 220-222), as a stable insertion sort (extensionally the unique
stable ascending sort). -/
def sortByVersion (l : List Migration) : List Migration :=
  l.foldl (fun acc m => insertAsc m acc) []

/-- A source folder: its path, the `ioutil.ReadDir` listing (in the
filename order ReadDir returns) and whether ReadDir itself fails. -/
structure Folder where
  name : String
  entries : List DirEntry
  readDirFails : Bool
deriving DecidableEq

/-- The per-entry body of the loader loop (migrate.go lines 199-215):
dispatch on the lower-cased extension of the entry name and build the
migration from the joined path. -/
def loadEntry (folder : String) (e : DirEntry) : Except GoErr Migration :=
  let extn := toLowerStr (pathExt e.name)
  if extn = ".sql" then NewSQLMigrationFile (pathJoin folder e.name) e.content e.readable
  else if extn = ".so" then NewPluginMigration (pathJoin folder e.name) e
  else .error (.wrap ("extension " ++ extn) (.base ErrUnknownMigrationType))

/-- The loader loop (migrate.go lines 196-218): each successfully built
migration is appended to `svc.migrations` before the next entry is
examined; the first failure returns immediately, keeping the appends
already made. -/
def getMigrationsLoop (folder : String) : Service → List DirEntry → Service × Option GoErr
  | svc, [] => (svc, none)
  | svc, e :: es =>
    match loadEntry folder e with
    | .error err => (svc, some err)
    | .ok m => getMigrationsLoop folder { svc with migrations := svc.migrations ++ [m] } es

/-- `getMigrations` (migrate.go lines 185-225): read the directory when
the path is nonempty, run the loop, then stable-sort the whole list
ascending by version (the sort runs only when no entry failed). -/
def Service.getMigrations (svc : Service) (f : Folder) : Service × Option GoErr :=
  if 0 < f.name.length then
    if f.readDirFails then (svc, some (.wrap "readdir" (.base "readdir error")))
    else
      match getMigrationsLoop f.name svc f.entries with
      | (svc', none) => ({ svc' with migrations := sortByVersion svc'.migrations }, none)
      | (svc', some err) => (svc', some err)
  else ({ svc with migrations := sortByVersion svc.migrations }, none)

/-- `LoadMigrations` (migrate.go lines 78-85): run `getMigrations` and
re-wrap any error with `fmt.Errorf("%w", err)`. -/
def Service.LoadMigrations (svc : Service) (f : Folder) : Service × Option GoErr :=
  match svc.getMigrations f with
  | (svc', some err) => (svc', some (.wrap "" err))
  | (svc', none) => (svc', none)

/-! ### The version store

Modelled from the spec: the `Database` capability executes a registered
named statement either directly (`Exec`/`Insert`/`Select`, immediately
committed) or inside a supplied transaction handle (`ExecTx`, committed
only by `tx.Commit`).  The durable state is the `dbVersion` table rows
plus an abstract log of committed migration-body side effects. -/

/-- A row of `dbVersion(version int primary key, createdAt bigint)`. -/
structure DbRow where
  version : Int
  createdAt : Int
deriving DecidableEq

/-- Committed database state: the `dbVersion` rows and an abstract log of
migration-body side effects that have been committed (identified by the
version of the migration whose body produced them). -/
structure DbState where
  rows : List DbRow
  applied : List Int
deriving DecidableEq

/-- One insertion step of `order by version desc`. -/
def insertDesc (r : DbRow) : List DbRow → List DbRow
  | [] => [r]
  | x :: xs => if x.version ≤ r.version then r :: x :: xs
      else x :: insertDesc r xs

/-- The rows in `order by version desc` order. -/
def sortDescByVersion (rows : List DbRow) : List DbRow :=
  rows.foldr insertDesc []

/-- The result set of `select * from dbVersion order by version desc
limit 1` (migrate.go line 22). -/
def selectDbVersion (rows : List DbRow) : List DbRow :=
  (sortDescByVersion rows).take 1

/-- The pure part of `getDbVersion` (migrate.go lines 156-177): `-1`
when the result set is empty, else the version of the only row. -/
def getDbVersionRows (rows : List DbRow) : Int :=
  match selectDbVersion rows with
  | [] => -1
  | r :: _ => r.version

/-- `getDbVersion` (migrate.go lines 156-177) including the fallible
`Select` call, which wraps its error as `select: %w`. -/
def getDbVersion (db : DbState) (selectFails : Bool) : Except GoErr Int :=
  if selectFails then .error (.wrap "select" (.base "select error"))
  else .ok (getDbVersionRows db.rows)

/-- `CurrentVersion` (migrate.go lines 152-154): pass-through to
`getDbVersion`. -/
def Service.CurrentVersion (db : DbState) (selectFails : Bool) : Except GoErr Int :=
  getDbVersion db selectFails

/-! ### Upgrade -/

/-- Which of the external database operations fail during one
`Upgrade()` call. -/
structure StepFaults where
  selectFails : Bool
  beginFails : Bool
  runFails : Bool
  insertFails : Bool
  commitFails : Bool
  rollbackFails : Bool
deriving DecidableEq

/-- The deferred rollback handler (migrate.go lines 114-121): it runs
when `err != nil && tx != nil`; when the rollback itself fails it
overwrites `svc.err` with `fmt.Errorf("rollback: %w", err)` where `err`
is the original (unwrapped) failure, else the earlier wrapped error
stays. -/
def rollbackAdjust (f : StepFaults) (raw wrapped : GoErr) : GoErr :=
  if f.rollbackFails then .wrap "rollback" raw else wrapped

/-- Outcome of the scan-and-apply loop of `Upgrade`. -/
structure LoopOut where
  returned : Bool
  errSlot : Option GoErr
  db : DbState
  selected : Option Migration
deriving DecidableEq

/-- The loop of `Upgrade` (migrate.go lines 103-145): scan the list in
order; at the first migration whose version is strictly greater than the
current version, begin a transaction, run the body inside it, insert the
version row via `svc.db.Insert` — a direct (non-transactional) execution,
so the row is committed immediately — then commit the transaction (the
body's side effects), rolling back the transaction on failure.
`selected` records the migration at which the loop entered its apply
branch. -/
def upgradeLoop (f : StepFaults) (now : Int) (db : DbState) (version : Int) :
    List Migration → LoopOut
  | [] => ⟨false, none, db, none⟩
  | m :: ms =>
    if version < m.Version then
      if f.beginFails then
        ⟨false, some (.wrap "begin tx" (.base "begin error")), db, some m⟩
      else if f.runFails then
        ⟨false, some (rollbackAdjust f (.base "run error") (.wrap "exec" (.base "run error"))), db, some m⟩
      else if f.insertFails then
        ⟨false, some (rollbackAdjust f (.base "insert error") (.wrap "add version" (.base "insert error"))), db, some m⟩
      else
        let db1 : DbState := { db with rows := db.rows ++ [⟨m.Version, now⟩] }
        if f.commitFails then
          ⟨false, some (rollbackAdjust f (.base "commit error") (.wrap "commit" (.base "commit error"))), db1, some m⟩
        else
          ⟨true, none, { db1 with applied := db1.applied ++ [m.Version] }, some m⟩
    else upgradeLoop f now db version ms

/-- The full outcome of one `Upgrade()` call. -/
structure UpgradeResult where
  returned : Bool
  svc : Service
  db : DbState
  selected : Option Migration
deriving DecidableEq

/-- `Upgrade` (migrate.go lines 94-149): clear the error slot, read the
current version (wrapping a read failure as `get db version: %w`), then
run the scan-and-apply loop; the loop's error lands in the slot, and the
slot is cleared again when the loop finds nothing pending. -/
def Service.Upgrade (svc : Service) (db : DbState) (f : StepFaults) (now : Int) :
    UpgradeResult :=
  if f.selectFails then
    { returned := false
      svc := { svc with err := some (.wrap "get db version" (.wrap "select" (.base "select error"))) }
      db := db
      selected := none }
  else
    let o := upgradeLoop f now db (getDbVersionRows db.rows) svc.migrations
    { returned := o.returned
      svc := { svc with err := o.errSlot }
      db := o.db
      selected := o.selected }

/-- A sequence of `Upgrade()` calls (the caller-side loop), each with its
own fault outcomes and timestamp; collects every call's result. -/
def runUpgrades : Service → DbState → List (StepFaults × Int) →
    Service × DbState × List UpgradeResult
  | svc, db, [] => (svc, db, [])
  | svc, db, (f, now) :: steps =>
    let r := svc.Upgrade db f now
    let rest := runUpgrades r.svc r.db steps
    (rest.1, rest.2.1, r :: rest.2.2)

/-- The versions of the migrations applied (calls that returned true)
in a sequence of `Upgrade()` calls. -/
def appliedVersions (recs : List UpgradeResult) : List Int :=
  recs.filterMap (fun r => if r.returned then r.selected.map Migration.Version else none)

/-! ### SQLMigration.Run -/

/-- `SQLMigration.Run` (migrate.go lines 292-302): register the statement
under the key `DB_MIGRATION_<version>`; a registration failure returns
nil without executing anything; otherwise execute the statement inside
the supplied transaction via `ExecTx` and return its error.  The
database's statement registry and the transaction's statement log are
explicit state. -/
def SQLMigration.Run (statement : String) (version : Int)
    (registry : List (String × String)) (registerFails : Bool) (execFails : Bool)
    (txLog : List String) :
    Option GoErr × List (String × String) × List String :=
  let key := "DB_MIGRATION_" ++ toString version
  if registerFails then (none, registry, txLog)
  else
    ((if execFails then some (.base "exec error") else none),
      registry ++ [(key, statement)], txLog ++ [statement])

/-! ### The spec's naming pattern (for comparison with the code)

Modelled from the spec: the anchored naming convention
`^(\d+)_(.+)\.(sql|so)$` of spec sections 6 and 4.1, to be compared with
the loader's actual acceptance behaviour. -/

/-- Strip a literal suffix. -/
def stripSuffixCh (l suf : List Char) : Option (List Char) :=
  if suf.isSuffixOf l then some (l.take (l.length - suf.length)) else none

/-- The `(\d+)_(.+)` core of the anchored pattern: a nonempty leading
digit run, an underscore, then a nonempty newline-free label. -/
def specCore (core : List Char) : Bool :=
  let ds := core.takeWhile isDigitCh
  match core.dropWhile isDigitCh with
  | '_' :: label => !ds.isEmpty && !label.isEmpty && label.all (fun c => c ≠ '\n')
  | _ => false

/-- Modelled from the spec: a source entry name matches the anchored
pattern `^(\d+)_(.+)\.(sql|so)$`. -/
def specNameAccepted (name : String) : Bool :=
  let l := name.toList
  match stripSuffixCh l ['.', 's', 'q', 'l'] with
  | some core => specCore core
  | none =>
    match stripSuffixCh l ['.', 's', 'o'] with
    | some core => specCore core
    | none => false

/-! ### Derived views used in statements -/

/-- The migrations built from a listing, stopping at the first failing
entry: the loadable prefix together with the first failure (if any).
`getMigrationsLoop` appends exactly this prefix (see
`getMigrationsLoop_eq`). -/
def loadResults (folder : String) : List DirEntry → List Migration × Option GoErr
  | [] => ([], none)
  | e :: es =>
    match loadEntry folder e with
    | .error err => ([], some err)
    | .ok m =>
      let rest := loadResults folder es
      (m :: rest.1, rest.2)

/-- A fault schedule where every external database operation succeeds. -/
def noFaults : StepFaults := ⟨false, false, false, false, false, false⟩

/-- A fault schedule where only the transaction commit fails. -/
def commitOnlyFails : StepFaults := ⟨false, false, false, false, true, false⟩

/-- A fresh database: no version rows, no committed migration effects. -/
def emptyDb : DbState := ⟨[], []⟩

/-! ## Lemmas about the version store -/

lemma sortDesc_cons (r : DbRow) (l : List DbRow) :
    sortDescByVersion (r :: l) = insertDesc r (sortDescByVersion l) := rfl

lemma sortDesc_head_max : ∀ l : List DbRow, l ≠ [] →
    ∃ x, x ∈ l ∧ (sortDescByVersion l).head? = some x ∧ ∀ y ∈ l, y.version ≤ x.version := by
  intro l
  induction l with
  | nil => intro h; exact absurd rfl h
  | cons r rest ih =>
    intro _
    by_cases hrest : rest = []
    · subst hrest
      refine ⟨r, List.mem_singleton.mpr rfl, rfl, ?_⟩
      intro y hy
      rw [List.mem_singleton] at hy
      subst hy; exact le_refl _
    · obtain ⟨x, hxmem, hxhead, hxmax⟩ := ih hrest
      obtain ⟨xs, hxs⟩ : ∃ xs, sortDescByVersion rest = x :: xs := by
        cases hsd : sortDescByVersion rest with
        | nil => rw [hsd] at hxhead; simp at hxhead
        | cons a as =>
          rw [hsd] at hxhead
          simp only [List.head?_cons, Option.some.injEq] at hxhead
          exact ⟨as, by rw [hxhead]⟩
      have hstep : sortDescByVersion (r :: rest) = insertDesc r (x :: xs) := by
        rw [sortDesc_cons, hxs]
      by_cases hcmp : x.version ≤ r.version
      · refine ⟨r, List.mem_cons_self r rest, ?_, ?_⟩
        · rw [hstep]; simp [insertDesc, hcmp]
        · intro y hy
          rcases List.mem_cons.mp hy with h | h
          · subst h; exact le_refl _
          · exact le_trans (hxmax y h) hcmp
      · refine ⟨x, List.mem_cons_of_mem r hxmem, ?_, ?_⟩
        · rw [hstep]; simp [insertDesc, hcmp]
        · intro y hy
          rcases List.mem_cons.mp hy with h | h
          · subst h; exact le_of_lt (lt_of_not_le hcmp)
          · exact hxmax y h

lemma getDbVersionRows_max (l : List DbRow) (h : l ≠ []) :
    ∃ x, x ∈ l ∧ getDbVersionRows l = x.version ∧ ∀ y ∈ l, y.version ≤ x.version := by
  obtain ⟨x, hm, hh, hmax⟩ := sortDesc_head_max l h
  refine ⟨x, hm, ?_, hmax⟩
  unfold getDbVersionRows selectDbVersion
  cases hsd : sortDescByVersion l with
  | nil => rw [hsd] at hh; simp at hh
  | cons a as =>
    rw [hsd] at hh
    simp only [List.head?_cons, Option.some.injEq] at hh
    subst hh; simp

lemma getDbVersionRows_ub (l : List DbRow) (y : DbRow) (hy : y ∈ l) :
    y.version ≤ getDbVersionRows l := by
  obtain ⟨x, _, heq, hmax⟩ := getDbVersionRows_max l (List.ne_nil_of_mem hy)
  rw [heq]; exact hmax y hy

lemma getDbVersionRows_append_gt (l : List DbRow) (r : DbRow)
    (h : getDbVersionRows l < r.version) :
    getDbVersionRows (l ++ [r]) = r.version := by
  obtain ⟨x, hm, heq, _⟩ := getDbVersionRows_max (l ++ [r]) (by simp)
  have hr : r.version ≤ getDbVersionRows (l ++ [r]) :=
    getDbVersionRows_ub (l ++ [r]) r (by simp)
  rcases List.mem_append.mp hm with hx | hx
  · have h1 : x.version ≤ getDbVersionRows l := getDbVersionRows_ub l x hx
    rw [heq] at hr
    omega
  · rw [List.mem_singleton] at hx
    subst hx
    rw [heq]

/-- Claim C6: for every database state, `CurrentVersion()` returns the
maximum version across all recorded rows (`-1` when no rows exist), and
on a read failure it returns the wrapped error. -/
theorem C6_current_version_is_max (db : DbState) :
    Service.CurrentVersion db true = .error (.wrap "select" (.base "select error")) ∧
    (db.rows = [] → Service.CurrentVersion db false = .ok (-1)) ∧
    (db.rows ≠ [] → ∃ x, x ∈ db.rows ∧ Service.CurrentVersion db false = .ok x.version ∧
      ∀ y ∈ db.rows, y.version ≤ x.version) := by
  refine ⟨rfl, ?_, ?_⟩
  · intro h
    simp [Service.CurrentVersion, getDbVersion, getDbVersionRows, selectDbVersion, h,
      sortDescByVersion]
  · intro h
    obtain ⟨x, hm, heq, hmax⟩ := getDbVersionRows_max db.rows h
    exact ⟨x, hm, by simp [Service.CurrentVersion, getDbVersion, heq], hmax⟩

/-- Witness for C6 at a concrete database with rows of versions 3, 7, 5:
the hypotheses hold and the returned version is the maximum. -/
theorem C6_current_version_is_max_witness :
    (DbState.mk [⟨3, 0⟩, ⟨7, 1⟩, ⟨5, 2⟩] []).rows ≠ [] ∧
    (∃ x, x ∈ (DbState.mk [⟨3, 0⟩, ⟨7, 1⟩, ⟨5, 2⟩] []).rows ∧
      Service.CurrentVersion (DbState.mk [⟨3, 0⟩, ⟨7, 1⟩, ⟨5, 2⟩] []) false = .ok x.version ∧
      ∀ y ∈ (DbState.mk [⟨3, 0⟩, ⟨7, 1⟩, ⟨5, 2⟩] []).rows, y.version ≤ x.version) ∧
    Service.CurrentVersion (DbState.mk [⟨3, 0⟩, ⟨7, 1⟩, ⟨5, 2⟩] []) false = .ok 7 :=
  ⟨by decide, (C6_current_version_is_max (DbState.mk [⟨3, 0⟩, ⟨7, 1⟩, ⟨5, 2⟩] [])).2.2 (by decide),
    by decide⟩

/-! ## Lemmas about the Upgrade loop -/

lemma upgradeLoop_nil (f : StepFaults) (now : Int) (db : DbState) (v : Int) :
    upgradeLoop f now db v [] = ⟨false, none, db, none⟩ := rfl

lemma upgradeLoop_cons_pos (f : StepFaults) (now : Int) (db : DbState) (v : Int)
    (m : Migration) (ms : List Migration) (h : v < m.Version) :
    upgradeLoop f now db v (m :: ms) =
      if f.beginFails then
        ⟨false, some (.wrap "begin tx" (.base "begin error")), db, some m⟩
      else if f.runFails then
        ⟨false, some (rollbackAdjust f (.base "run error") (.wrap "exec" (.base "run error"))), db, some m⟩
      else if f.insertFails then
        ⟨false, some (rollbackAdjust f (.base "insert error") (.wrap "add version" (.base "insert error"))), db, some m⟩
      else if f.commitFails then
        ⟨false, some (rollbackAdjust f (.base "commit error") (.wrap "commit" (.base "commit error"))),
          { db with rows := db.rows ++ [⟨m.Version, now⟩] }, some m⟩
      else
        ⟨true, none, ⟨db.rows ++ [⟨m.Version, now⟩], db.applied ++ [m.Version]⟩, some m⟩ := by
  simp only [upgradeLoop, if_pos h]

lemma upgradeLoop_cons_neg (f : StepFaults) (now : Int) (db : DbState) (v : Int)
    (m : Migration) (ms : List Migration) (h : ¬ v < m.Version) :
    upgradeLoop f now db v (m :: ms) = upgradeLoop f now db v ms := by
  simp only [upgradeLoop, if_neg h]

lemma upgradeLoop_selected (f : StepFaults) (now : Int) (db : DbState) (v : Int) :
    ∀ l : List Migration,
      (upgradeLoop f now db v l).selected = l.find? (fun m => decide (v < m.Version)) := by
  intro l
  induction l with
  | nil => rfl
  | cons m ms ih =>
    by_cases h : v < m.Version
    · rw [upgradeLoop_cons_pos f now db v m ms h,
        List.find?_cons_of_pos _ (by simpa using h)]
      cases hb : f.beginFails <;> cases hr : f.runFails <;> cases hi : f.insertFails <;>
        cases hc : f.commitFails <;> simp
    · rw [upgradeLoop_cons_neg f now db v m ms h,
        List.find?_cons_of_neg _ (by simpa using h)]
      exact ih

lemma upgradeLoop_shape (f : StepFaults) (now : Int) (db : DbState) (v : Int) :
    ∀ l : List Migration,
      (upgradeLoop f now db v l).db = db ∧ (upgradeLoop f now db v l).returned = false ∨
      (∃ m, (upgradeLoop f now db v l).selected = some m ∧ v < m.Version ∧
        (upgradeLoop f now db v l).db.rows = db.rows ++ [⟨m.Version, now⟩] ∧
        ((upgradeLoop f now db v l).returned = true ∧
            (upgradeLoop f now db v l).db.applied = db.applied ++ [m.Version] ∨
         (upgradeLoop f now db v l).returned = false ∧
            (upgradeLoop f now db v l).db.applied = db.applied)) := by
  intro l
  induction l with
  | nil => exact Or.inl ⟨rfl, rfl⟩
  | cons m ms ih =>
    by_cases h : v < m.Version
    · rw [upgradeLoop_cons_pos f now db v m ms h]
      cases hb : f.beginFails
      · cases hr : f.runFails
        · cases hi : f.insertFails
          · cases hc : f.commitFails
            · exact Or.inr ⟨m, by simp, h, by simp, Or.inl ⟨by simp, by simp⟩⟩
            · exact Or.inr ⟨m, by simp, h, by simp, Or.inr ⟨by simp, by simp⟩⟩
          · exact Or.inl ⟨by simp, by simp⟩
        · exact Or.inl ⟨by simp, by simp⟩
      · exact Or.inl ⟨by simp, by simp⟩
    · rw [upgradeLoop_cons_neg f now db v m ms h]
      exact ih

lemma upgradeLoop_err_iff (f : StepFaults) (now : Int) (db : DbState) (v : Int) :
    ∀ l : List Migration,
      ((upgradeLoop f now db v l).errSlot = none ↔
        (upgradeLoop f now db v l).returned = true ∨
        (upgradeLoop f now db v l).selected = none) := by
  intro l
  induction l with
  | nil => simp [upgradeLoop_nil]
  | cons m ms ih =>
    by_cases h : v < m.Version
    · rw [upgradeLoop_cons_pos f now db v m ms h]
      cases hb : f.beginFails <;> cases hr : f.runFails <;> cases hi : f.insertFails <;>
        cases hc : f.commitFails <;> simp
    · rw [upgradeLoop_cons_neg f now db v m ms h]
      exact ih

lemma upgradeLoop_noFaults (f : StepFaults) (now : Int) (db : DbState) (v : Int)
    (hb : f.beginFails = false) (hr : f.runFails = false) (hi : f.insertFails = false)
    (hc : f.commitFails = false) :
    ∀ l : List Migration, ∀ m : Migration,
      (upgradeLoop f now db v l).selected = some m →
      (upgradeLoop f now db v l).returned = true ∧
      (upgradeLoop f now db v l).db.rows = db.rows ++ [⟨m.Version, now⟩] ∧
      (upgradeLoop f now db v l).db.applied = db.applied ++ [m.Version] := by
  intro l
  induction l with
  | nil => intro m hm; simp [upgradeLoop_nil] at hm
  | cons m0 ms ih =>
    intro m hm
    by_cases h : v < m0.Version
    · rw [upgradeLoop_cons_pos f now db v m0 ms h] at hm ⊢
      simp only [hb, hr, hi, hc, if_false, Bool.false_eq_true] at hm ⊢
      simp only [Option.some.injEq] at hm
      subst hm
      simp
    · rw [upgradeLoop_cons_neg f now db v m0 ms h] at hm ⊢
      exact ih m hm

/-! ## Lemmas about a single Upgrade call -/

lemma Upgrade_eq (svc : Service) (db : DbState) (f : StepFaults) (now : Int)
    (h : f.selectFails = false) :
    svc.Upgrade db f now =
      { returned := (upgradeLoop f now db (getDbVersionRows db.rows) svc.migrations).returned
        svc := { svc with err := (upgradeLoop f now db (getDbVersionRows db.rows) svc.migrations).errSlot }
        db := (upgradeLoop f now db (getDbVersionRows db.rows) svc.migrations).db
        selected := (upgradeLoop f now db (getDbVersionRows db.rows) svc.migrations).selected } := by
  simp [Service.Upgrade, h]

lemma Upgrade_selectFails (svc : Service) (db : DbState) (f : StepFaults) (now : Int)
    (h : f.selectFails = true) :
    svc.Upgrade db f now =
      { returned := false
        svc := { svc with err := some (.wrap "get db version" (.wrap "select" (.base "select error"))) }
        db := db
        selected := none } := by
  simp [Service.Upgrade, h]

lemma Upgrade_current_mono (svc : Service) (db : DbState) (f : StepFaults) (now : Int) :
    getDbVersionRows db.rows ≤ getDbVersionRows (svc.Upgrade db f now).db.rows := by
  cases hf : f.selectFails
  · rw [Upgrade_eq svc db f now hf]
    rcases upgradeLoop_shape f now db (getDbVersionRows db.rows) svc.migrations with
      ⟨hdb, _⟩ | ⟨m, _, hgt, hrows, _⟩
    · rw [hdb]
    · show getDbVersionRows db.rows ≤ getDbVersionRows (upgradeLoop _ _ _ _ _).db.rows
      rw [hrows, getDbVersionRows_append_gt db.rows ⟨m.Version, now⟩ hgt]
      exact le_of_lt hgt
  · rw [Upgrade_selectFails svc db f now hf]

lemma Upgrade_selected_gt (svc : Service) (db : DbState) (f : StepFaults) (now : Int)
    (m : Migration) (hm : (svc.Upgrade db f now).selected = some m) :
    getDbVersionRows db.rows < m.Version := by
  cases hf : f.selectFails
  · rw [Upgrade_eq svc db f now hf] at hm
    rw [show ({ returned := _, svc := _, db := _, selected :=
      (upgradeLoop f now db (getDbVersionRows db.rows) svc.migrations).selected } :
        UpgradeResult).selected = _ from rfl,
      upgradeLoop_selected f now db (getDbVersionRows db.rows) svc.migrations] at hm
    have := List.find?_some hm
    simpa using this
  · rw [Upgrade_selectFails svc db f now hf] at hm
    simp at hm

lemma Upgrade_true_current (svc : Service) (db : DbState) (f : StepFaults) (now : Int)
    (h : (svc.Upgrade db f now).returned = true) :
    ∃ m, (svc.Upgrade db f now).selected = some m ∧
      getDbVersionRows (svc.Upgrade db f now).db.rows = m.Version := by
  cases hf : f.selectFails
  · rw [Upgrade_eq svc db f now hf] at h ⊢
    rcases upgradeLoop_shape f now db (getDbVersionRows db.rows) svc.migrations with
      ⟨_, hret⟩ | ⟨m, hsel, hgt, hrows, hcase⟩
    · exact absurd (h.symm.trans hret) (by simp)
    · refine ⟨m, hsel, ?_⟩
      show getDbVersionRows (upgradeLoop _ _ _ _ _).db.rows = m.Version
      rw [hrows, getDbVersionRows_append_gt db.rows ⟨m.Version, now⟩ hgt]
  · rw [Upgrade_selectFails svc db f now hf] at h
    simp at h

/-! ## Lemmas about sequences of Upgrade calls -/

lemma runUpgrades_cons (svc : Service) (db : DbState) (f : StepFaults) (now : Int)
    (steps : List (StepFaults × Int)) :
    runUpgrades svc db ((f, now) :: steps) =
      ((runUpgrades (svc.Upgrade db f now).svc (svc.Upgrade db f now).db steps).1,
       (runUpgrades (svc.Upgrade db f now).svc (svc.Upgrade db f now).db steps).2.1,
       svc.Upgrade db f now ::
         (runUpgrades (svc.Upgrade db f now).svc (svc.Upgrade db f now).db steps).2.2) := rfl

lemma runUpgrades_invariant : ∀ (steps : List (StepFaults × Int)) (svc : Service) (db : DbState),
    getDbVersionRows db.rows ≤ getDbVersionRows (runUpgrades svc db steps).2.1.rows ∧
    (∀ r ∈ (runUpgrades svc db steps).2.2, ∀ m, r.selected = some m →
      getDbVersionRows db.rows < m.Version) ∧
    List.Pairwise (fun a b => a < b) (appliedVersions (runUpgrades svc db steps).2.2) ∧
    (∀ w ∈ appliedVersions (runUpgrades svc db steps).2.2, getDbVersionRows db.rows < w) := by
  intro steps
  induction steps with
  | nil =>
    intro svc db
    exact ⟨le_refl _, by simp [runUpgrades, appliedVersions], by simp [runUpgrades, appliedVersions],
      by simp [runUpgrades, appliedVersions]⟩
  | cons step rest ih =>
    intro svc db
    obtain ⟨f, now⟩ := step
    obtain ⟨ih1, ih2, ih3, ih4⟩ := ih (svc.Upgrade db f now).svc (svc.Upgrade db f now).db
    have hmono : getDbVersionRows db.rows ≤ getDbVersionRows (svc.Upgrade db f now).db.rows :=
      Upgrade_current_mono svc db f now
    rw [runUpgrades_cons]
    refine ⟨le_trans hmono ih1, ?_, ?_, ?_⟩
    · intro r hr m hm
      rcases List.mem_cons.mp hr with h | h
      · subst h; exact Upgrade_selected_gt svc db f now m hm
      · exact lt_of_le_of_lt hmono (ih2 r h m hm)
    · show List.Pairwise _ (appliedVersions (svc.Upgrade db f now :: _))
      unfold appliedVersions
      rw [List.filterMap_cons]
      cases hret : (svc.Upgrade db f now).returned
      · simp only [hret, if_false, Bool.false_eq_true]
        exact ih3
      · obtain ⟨m, hsel, hcur⟩ := Upgrade_true_current svc db f now hret
        simp only [hret, if_true, hsel, Option.map_some]
        refine List.Pairwise.cons ?_ ih3
        intro w hw
        have := ih4 w hw
        rw [hcur] at this
        exact this
    · show ∀ w ∈ appliedVersions (svc.Upgrade db f now :: _), _
      unfold appliedVersions
      rw [List.filterMap_cons]
      cases hret : (svc.Upgrade db f now).returned
      · simp only [hret, if_false, Bool.false_eq_true]
        intro w hw
        exact lt_of_le_of_lt hmono (ih4 w hw)
      · obtain ⟨m, hsel, _⟩ := Upgrade_true_current svc db f now hret
        simp only [hret, if_true, hsel, Option.map_some]
        intro w hw
        rcases List.mem_cons.mp hw with h | h
        · subst h; exact Upgrade_selected_gt svc db f now m hsel
        · exact lt_of_le_of_lt hmono (ih4 w h)

/-- Claim C10: once the version store's current version is `v`, no
subsequently selected (hence run) migration has a version at or below
`v`; and across any sequence of `Upgrade()` calls the versions actually
applied are strictly increasing, hence pairwise distinct — with duplicate
versions in the set, at most one copy of each duplicated version is ever
applied. -/
theorem C10_strict_progress (svc : Service) (db : DbState)
    (steps : List (StepFaults × Int)) :
    (∀ r ∈ (runUpgrades svc db steps).2.2, ∀ m, r.selected = some m →
      getDbVersionRows db.rows < m.Version) ∧
    List.Pairwise (fun a b => a < b) (appliedVersions (runUpgrades svc db steps).2.2) ∧
    (appliedVersions (runUpgrades svc db steps).2.2).Nodup := by
  obtain ⟨_, h2, h3, _⟩ := runUpgrades_invariant steps svc db
  exact ⟨h2, h3, h3.imp ne_of_lt⟩

/-- Witness for C10 on a set holding two migrations of the same version 2:
across two fault-free calls only one copy is applied. -/
theorem C10_strict_progress_witness :
    List.Pairwise (fun a b => a < b)
      (appliedVersions (runUpgrades ⟨[.custom 2, .custom 2], none⟩ emptyDb
        [(noFaults, 0), (noFaults, 1)]).2.2) ∧
    appliedVersions (runUpgrades ⟨[.custom 2, .custom 2], none⟩ emptyDb
        [(noFaults, 0), (noFaults, 1)]).2.2 = [2] :=
  ⟨(C10_strict_progress ⟨[.custom 2, .custom 2], none⟩ emptyDb
      [(noFaults, 0), (noFaults, 1)]).2.1, by decide⟩

/-- Claim C1 (code bug, spec-modelled database capability): the version
row is recorded by `svc.db.Insert` (migrate.go line 129), a direct
execution outside the open transaction, so it does not commit or roll
back with the migration body.  Concretely: one pending migration of
version 1 on an empty database with a failing commit makes `Upgrade()`
return false with a non-nil `Err()`, yet `CurrentVersion()` moves from
-1 to 1 while the body's effects are rolled back — contradicting the
claimed atomicity. -/
theorem C1_version_row_escapes_transaction :
    ((Service.mk [.custom 1] none).Upgrade emptyDb commitOnlyFails 7).returned = false ∧
    ((Service.mk [.custom 1] none).Upgrade emptyDb commitOnlyFails 7).svc.Err ≠ none ∧
    Service.CurrentVersion emptyDb false = .ok (-1) ∧
    Service.CurrentVersion ((Service.mk [.custom 1] none).Upgrade emptyDb commitOnlyFails 7).db false
      = .ok 1 ∧
    ((Service.mk [.custom 1] none).Upgrade emptyDb commitOnlyFails 7).db.applied = [] := by
  decide

/-- Claim C4: with a readable version store, `Upgrade()` selects exactly
the first migration in scan order whose version is strictly greater than
the current version (skipping every migration at or below it), applies at
most one migration, and — when every later operation succeeds — runs only
that migration, records exactly its version with the call's timestamp,
and returns true; with nothing pending it returns false and leaves the
database untouched. -/
theorem C4_first_pending_only (svc : Service) (db : DbState) (f : StepFaults) (now : Int)
    (h : f.selectFails = false) :
    (svc.Upgrade db f now).selected
        = svc.migrations.find? (fun m => decide (getDbVersionRows db.rows < m.Version)) ∧
    ((svc.Upgrade db f now).selected = none →
      (svc.Upgrade db f now).returned = false ∧ (svc.Upgrade db f now).db = db) ∧
    (∀ m, (svc.Upgrade db f now).selected = some m → getDbVersionRows db.rows < m.Version) ∧
    (f.beginFails = false → f.runFails = false → f.insertFails = false → f.commitFails = false →
      ∀ m, (svc.Upgrade db f now).selected = some m →
        (svc.Upgrade db f now).returned = true ∧
        (svc.Upgrade db f now).db.rows = db.rows ++ [⟨m.Version, now⟩] ∧
        (svc.Upgrade db f now).db.applied = db.applied ++ [m.Version]) ∧
    (svc.Upgrade db f now).db.rows.length ≤ db.rows.length + 1 := by
  rw [Upgrade_eq svc db f now h]
  refine ⟨upgradeLoop_selected f now db (getDbVersionRows db.rows) svc.migrations, ?_, ?_, ?_, ?_⟩
  · intro hnone
    rcases upgradeLoop_shape f now db (getDbVersionRows db.rows) svc.migrations with
      ⟨hdb, hret⟩ | ⟨m, hsel, _, _, _⟩
    · exact ⟨hret, hdb⟩
    · rw [show (({ returned := _, svc := _, db := _, selected :=
        (upgradeLoop f now db (getDbVersionRows db.rows) svc.migrations).selected } :
          UpgradeResult).selected) = _ from rfl, hsel] at hnone
      exact absurd hnone (by simp)
  · intro m hm
    rw [upgradeLoop_selected f now db (getDbVersionRows db.rows) svc.migrations] at hm
    simpa using List.find?_some hm
  · intro hb hr hi hc m hm
    exact upgradeLoop_noFaults f now db (getDbVersionRows db.rows) hb hr hi hc
      svc.migrations m hm
  · rcases upgradeLoop_shape f now db (getDbVersionRows db.rows) svc.migrations with
      ⟨hdb, _⟩ | ⟨m, _, _, hrows, _⟩
    · show (upgradeLoop f now db (getDbVersionRows db.rows) svc.migrations).db.rows.length ≤ _
      rw [hdb]
      omega
    · show (upgradeLoop f now db (getDbVersionRows db.rows) svc.migrations).db.rows.length ≤ _
      rw [hrows]
      simp

/-- Witness for C4 at a concrete service whose set is [v1, v3] over a
database at version 1: the call selects and applies exactly the version-3
migration. -/
theorem C4_first_pending_only_witness :
    noFaults.selectFails = false ∧
    ((Service.mk [.custom 1, .custom 3] none).Upgrade ⟨[⟨1, 0⟩], [1]⟩ noFaults 9).selected
      = (Service.mk [.custom 1, .custom 3] none).migrations.find?
          (fun m => decide (getDbVersionRows (DbState.mk [⟨1, 0⟩] [1]).rows < m.Version)) ∧
    ((Service.mk [.custom 1, .custom 3] none).Upgrade ⟨[⟨1, 0⟩], [1]⟩ noFaults 9).selected
      = some (.custom 3) ∧
    ((Service.mk [.custom 1, .custom 3] none).Upgrade ⟨[⟨1, 0⟩], [1]⟩ noFaults 9).db.rows
      = [⟨1, 0⟩, ⟨3, 9⟩] :=
  ⟨rfl,
    (C4_first_pending_only (Service.mk [.custom 1, .custom 3] none) ⟨[⟨1, 0⟩], [1]⟩
      noFaults 9 rfl).1,
    by decide, by decide⟩

/-- Claim C5: `Upgrade()` itself returns only the boolean; every failure
surfaces as a false return with a non-nil wrapped error in the slot read
by `Err()`, a fully successful call and a nothing-pending call both leave
the slot nil, and these are the only nil cases. -/
theorem C5_err_slot_discipline (svc : Service) (db : DbState) (f : StepFaults) (now : Int) :
    ((svc.Upgrade db f now).returned = true → (svc.Upgrade db f now).svc.Err = none) ∧
    ((svc.Upgrade db f now).svc.Err = none ↔
      (svc.Upgrade db f now).returned = true ∨
      (f.selectFails = false ∧ (svc.Upgrade db f now).selected = none)) := by
  cases hf : f.selectFails
  · rw [Upgrade_eq svc db f now hf]
    have hiff := upgradeLoop_err_iff f now db (getDbVersionRows db.rows) svc.migrations
    constructor
    · intro hret
      show (upgradeLoop f now db (getDbVersionRows db.rows) svc.migrations).errSlot = none
      exact hiff.mpr (Or.inl hret)
    · show (upgradeLoop f now db (getDbVersionRows db.rows) svc.migrations).errSlot = none ↔ _
      rw [hiff]
      constructor
      · rintro (h | h)
        · exact Or.inl h
        · exact Or.inr ⟨rfl, h⟩
      · rintro (h | ⟨_, h⟩)
        · exact Or.inl h
        · exact Or.inr h
  · rw [Upgrade_selectFails svc db f now hf]
    simp [Service.Err, hf]

/-- Witness for C5: a nothing-pending call (version store already at 5)
returns false with a nil error slot, and the iff instantiates there. -/
theorem C5_err_slot_discipline_witness :
    (((Service.mk [.custom 4] none).Upgrade ⟨[⟨5, 0⟩], []⟩ noFaults 3).svc.Err = none ↔
      ((Service.mk [.custom 4] none).Upgrade ⟨[⟨5, 0⟩], []⟩ noFaults 3).returned = true ∨
      (noFaults.selectFails = false ∧
        ((Service.mk [.custom 4] none).Upgrade ⟨[⟨5, 0⟩], []⟩ noFaults 3).selected = none)) ∧
    ((Service.mk [.custom 4] none).Upgrade ⟨[⟨5, 0⟩], []⟩ noFaults 3).svc.Err = none ∧
    ((Service.mk [.custom 4] none).Upgrade ⟨[⟨5, 0⟩], []⟩ noFaults 3).returned = false :=
  ⟨(C5_err_slot_discipline (Service.mk [.custom 4] none) ⟨[⟨5, 0⟩], []⟩ noFaults 3).2,
    by decide, by decide⟩

/-! ## Lemmas about the engine-level sort and the loader -/

lemma insertAsc_perm (m : Migration) : ∀ l : List Migration, (insertAsc m l).Perm (l ++ [m]) := by
  intro l
  induction l with
  | nil => simp [insertAsc]
  | cons x xs ih =>
    by_cases h : x.Version ≤ m.Version
    · simp only [insertAsc, if_pos h]
      exact List.Perm.cons x ih
    · simp only [insertAsc, if_neg h]
      exact (List.perm_append_singleton m (x :: xs)).symm

lemma mem_insertAsc {y m : Migration} {l : List Migration} :
    y ∈ insertAsc m l ↔ y = m ∨ y ∈ l := by
  rw [(insertAsc_perm m l).mem_iff]
  simp [or_comm]

lemma insertAsc_pairwise (m : Migration) :
    ∀ l : List Migration, List.Pairwise (fun a b => a.Version ≤ b.Version) l →
      List.Pairwise (fun a b => a.Version ≤ b.Version) (insertAsc m l) := by
  intro l
  induction l with
  | nil => intro _; simp [insertAsc]
  | cons x xs ih =>
    intro hp
    obtain ⟨hx, hxs⟩ := List.pairwise_cons.mp hp
    by_cases h : x.Version ≤ m.Version
    · simp only [insertAsc, if_pos h]
      refine List.pairwise_cons.mpr ⟨?_, ih hxs⟩
      intro y hy
      rcases mem_insertAsc.mp hy with rfl | hy'
      · exact h
      · exact hx y hy'
    · simp only [insertAsc, if_neg h]
      refine List.pairwise_cons.mpr ⟨?_, hp⟩
      intro y hy
      rcases List.mem_cons.mp hy with rfl | hy'
      · exact le_of_lt (lt_of_not_le h)
      · exact le_trans (le_of_lt (lt_of_not_le h)) (hx y hy')

lemma sortByVersion_pairwise_aux :
    ∀ (l acc : List Migration), List.Pairwise (fun a b => a.Version ≤ b.Version) acc →
      List.Pairwise (fun a b => a.Version ≤ b.Version)
        (l.foldl (fun a m => insertAsc m a) acc) := by
  intro l
  induction l with
  | nil => intro acc h; simpa using h
  | cons m ms ih =>
    intro acc h
    exact ih (insertAsc m acc) (insertAsc_pairwise m acc h)

lemma sortByVersion_pairwise (l : List Migration) :
    List.Pairwise (fun a b => a.Version ≤ b.Version) (sortByVersion l) :=
  sortByVersion_pairwise_aux l [] (List.Pairwise.nil)

lemma sortByVersion_perm_aux :
    ∀ (l acc : List Migration), (l.foldl (fun a m => insertAsc m a) acc).Perm (acc ++ l) := by
  intro l
  induction l with
  | nil => intro acc; simp
  | cons m ms ih =>
    intro acc
    have h1 := ih (insertAsc m acc)
    have h2 : (insertAsc m acc ++ ms).Perm ((acc ++ [m]) ++ ms) :=
      (insertAsc_perm m acc).append_right ms
    have h3 : (acc ++ [m]) ++ ms = acc ++ (m :: ms) := by simp
    exact h1.trans (h3 ▸ h2)

lemma sortByVersion_perm (l : List Migration) : (sortByVersion l).Perm l := by
  have := sortByVersion_perm_aux l []
  simpa using this

lemma getMigrationsLoop_eq (folder : String) : ∀ (entries : List DirEntry) (svc : Service),
    getMigrationsLoop folder svc entries =
      ({ svc with migrations := svc.migrations ++ (loadResults folder entries).1 },
       (loadResults folder entries).2) := by
  intro entries
  induction entries with
  | nil => intro svc; simp [getMigrationsLoop, loadResults]
  | cons e es ih =>
    intro svc
    cases h : loadEntry folder e with
    | error err => simp [getMigrationsLoop, loadResults, h]
    | ok m => simp [getMigrationsLoop, loadResults, h, ih, List.append_assoc]

lemma find?_pending_min (v : Int) : ∀ l : List Migration,
    List.Pairwise (fun a b => a.Version ≤ b.Version) l →
    ∀ m, l.find? (fun m => decide (v < m.Version)) = some m →
    ∀ m' ∈ l, v < m'.Version → m.Version ≤ m'.Version := by
  intro l
  induction l with
  | nil => intro _ m h; simp at h
  | cons x xs ih =>
    intro hp m hfind m' hm' hv
    by_cases hx : v < x.Version
    · rw [List.find?_cons_of_pos _ (by simpa using hx)] at hfind
      have hmx : x = m := by simpa using hfind
      subst hmx
      rcases List.mem_cons.mp hm' with rfl | h
      · exact le_refl _
      · exact (List.pairwise_cons.mp hp).1 m' h
    · rw [List.find?_cons_of_neg _ (by simpa using hx)] at hfind
      rcases List.mem_cons.mp hm' with rfl | h
      · exact absurd hv hx
      · exact ih (List.pairwise_cons.mp hp).2 m hfind m' h hv

/-! ## Claims about ordering and loading -/

/-- Counterexample to claim C2: two migrations added via `AddMigration`
out of version order are never re-sorted — the set stays `[v2, v1]`
before every use — and across fault-free `Upgrade()` calls run to
exhaustion (second call returns false with nil `Err()`), only version 2
is ever applied: the version-1 migration, pending at the start, is
permanently skipped rather than applied in ascending order. -/
theorem C2_counterexample :
    ((Service.mk [] none).AddMigration (.custom 2)).AddMigration (.custom 1)
        = Service.mk [.custom 2, .custom 1] none ∧
    sortByVersion (Service.mk [.custom 2, .custom 1] none).migrations
        ≠ (Service.mk [.custom 2, .custom 1] none).migrations ∧
    (runUpgrades (Service.mk [.custom 2, .custom 1] none) emptyDb
        [(noFaults, 0), (noFaults, 1)]).2.2.map UpgradeResult.returned = [true, false] ∧
    (runUpgrades (Service.mk [.custom 2, .custom 1] none) emptyDb
        [(noFaults, 0), (noFaults, 1)]).1.Err = none ∧
    (runUpgrades (Service.mk [.custom 2, .custom 1] none) emptyDb
        [(noFaults, 0), (noFaults, 1)]).1.migrations = [.custom 2, .custom 1] ∧
    appliedVersions (runUpgrades (Service.mk [.custom 2, .custom 1] none) emptyDb
        [(noFaults, 0), (noFaults, 1)]).2.2 = [2] ∧
    getDbVersionRows emptyDb.rows < (Migration.custom 1).Version ∧
    (Migration.custom 1).Version ∉ appliedVersions (runUpgrades
        (Service.mk [.custom 2, .custom 1] none) emptyDb
        [(noFaults, 0), (noFaults, 1)]).2.2 := by
  decide

/-- Claim C2 (amended): the set is stable-sorted ascending by version
only at load time — any `LoadMigrations` call that returns nil leaves the
entire set (earlier additions included) stable-sorted ascending — and is
not re-sorted before each `Upgrade()`; on a set that is sorted ascending,
the migration `Upgrade()` selects is a pending migration of minimal
version (the globally-next pending one), so repeated calls over a sorted
set apply migrations in ascending version order. -/
theorem C2_sorted_at_load_minimal_selection (svc : Service) (F : Folder) (db : DbState)
    (f : StepFaults) (now : Int) :
    ((svc.LoadMigrations F).2 = none →
      List.Pairwise (fun a b => a.Version ≤ b.Version) (svc.LoadMigrations F).1.migrations) ∧
    (List.Pairwise (fun a b => a.Version ≤ b.Version) svc.migrations →
      ∀ m, (svc.Upgrade db f now).selected = some m →
        ∀ m' ∈ svc.migrations, getDbVersionRows db.rows < m'.Version →
          m.Version ≤ m'.Version) := by
  constructor
  · intro hok
    unfold Service.LoadMigrations at hok ⊢
    unfold Service.getMigrations at hok ⊢
    by_cases hname : 0 < F.name.length
    · simp only [if_pos hname] at hok ⊢
      by_cases hrd : F.readDirFails
      · simp [hrd] at hok
      · simp only [hrd, if_false, Bool.false_eq_true] at hok ⊢
        rw [getMigrationsLoop_eq F.name F.entries svc] at hok ⊢
        cases herr : (loadResults F.name F.entries).2 with
        | some e => simp [herr] at hok
        | none => simp [herr, sortByVersion_pairwise]
    · simp only [if_neg hname] at hok ⊢
      simp [sortByVersion_pairwise]
  · intro hsorted m hm m' hm' hv
    cases hf : f.selectFails
    · rw [Upgrade_eq svc db f now hf] at hm
      rw [show (({ returned := _, svc := _, db := _, selected :=
        (upgradeLoop f now db (getDbVersionRows db.rows) svc.migrations).selected } :
          UpgradeResult).selected) = _ from rfl,
        upgradeLoop_selected f now db (getDbVersionRows db.rows) svc.migrations] at hm
      exact find?_pending_min (getDbVersionRows db.rows) svc.migrations hsorted m hm m' hm' hv
    · rw [Upgrade_selectFails svc db f now hf] at hm
      simp at hm

/-- Witness for C2 (amended): loading two files listed out of version
order (v3 before v1) yields nil and a sorted set; on that sorted set the
selected migration (v1) is minimal among pending ones, e.g. against the
also-pending v3. -/
theorem C2_sorted_at_load_minimal_selection_witness :
    ((Service.mk [] none).LoadMigrations ⟨"d", [⟨"0003_x.sql", "s3", true, true, true, true⟩,
        ⟨"0001_y.sql", "s1", true, true, true, true⟩], false⟩).2 = none ∧
    List.Pairwise (fun a b => a.Version ≤ b.Version)
      ((Service.mk [] none).LoadMigrations ⟨"d", [⟨"0003_x.sql", "s3", true, true, true, true⟩,
        ⟨"0001_y.sql", "s1", true, true, true, true⟩], false⟩).1.migrations ∧
    ((Service.mk [] none).LoadMigrations ⟨"d", [⟨"0003_x.sql", "s3", true, true, true, true⟩,
        ⟨"0001_y.sql", "s1", true, true, true, true⟩], false⟩).1.migrations
      = [.sql "d/0001_y.sql" "s1" 1, .sql "d/0003_x.sql" "s3" 3] ∧
    List.Pairwise (fun a b => a.Version ≤ b.Version)
      (Service.mk [.custom 1, .custom 3] none).migrations ∧
    ((Service.mk [.custom 1, .custom 3] none).Upgrade emptyDb noFaults 0).selected
      = some (.custom 1) ∧
    Migration.custom 3 ∈ (Service.mk [.custom 1, .custom 3] none).migrations ∧
    getDbVersionRows emptyDb.rows < (Migration.custom 3).Version ∧
    (Migration.custom 1).Version ≤ (Migration.custom 3).Version :=
  ⟨by decide,
    (C2_sorted_at_load_minimal_selection (Service.mk [] none)
      ⟨"d", [⟨"0003_x.sql", "s3", true, true, true, true⟩,
        ⟨"0001_y.sql", "s1", true, true, true, true⟩], false⟩ emptyDb noFaults 0).1 (by decide),
    by decide, by decide, by decide, by decide, by decide,
    (C2_sorted_at_load_minimal_selection (Service.mk [.custom 1, .custom 3] none)
      ⟨"", [], false⟩ emptyDb noFaults 0).2 (by decide) (.custom 1) (by decide)
      (.custom 3) (by decide) (by decide)⟩

/-- Counterexample to claim C3: a folder whose first entry loads and
whose second entry fails (unrecognized `.txt` suffix) returns the error,
yet the first migration has already been installed — the set after the
failed `LoadMigrations` call is not the (empty) set from before it. -/
theorem C3_counterexample :
    ((Service.mk [] none).LoadMigrations ⟨"f",
        [⟨"0001_a.sql", "create", true, true, true, true⟩,
         ⟨"b.txt", "", true, true, true, true⟩], false⟩).2
      = some (.wrap "" (.wrap "extension .txt" (.base ErrUnknownMigrationType))) ∧
    ((Service.mk [] none).LoadMigrations ⟨"f",
        [⟨"0001_a.sql", "create", true, true, true, true⟩,
         ⟨"b.txt", "", true, true, true, true⟩], false⟩).1.migrations
      = [.sql "f/0001_a.sql" "create" 1] := by
  decide

/-- Claim C3 (amended): a load failure aborts the walk at the first
failing entry and returns that error wrapped, but it does not leave the
migration set unchanged: every migration built from the entries before
the failing one has already been appended to the set (and the failed
load also skips the final sort). -/
theorem C3_failed_load_partial_install (svc : Service) (F : Folder) (e : GoErr)
    (hname : 0 < F.name.length) (hrd : F.readDirFails = false)
    (hfail : (loadResults F.name F.entries).2 = some e) :
    (svc.LoadMigrations F).2 = some (.wrap "" e) ∧
    (svc.LoadMigrations F).1.migrations
      = svc.migrations ++ (loadResults F.name F.entries).1 := by
  unfold Service.LoadMigrations Service.getMigrations
  simp only [if_pos hname, hrd, if_false, Bool.false_eq_true]
  rw [getMigrationsLoop_eq F.name F.entries svc]
  simp [hfail]

/-- Witness for C3 (amended) at the concrete two-entry folder of the
counterexample: the hypotheses hold and the loaded prefix persists. -/
theorem C3_failed_load_partial_install_witness :
    0 < ("f" : String).length ∧
    (loadResults "f" [⟨"0001_a.sql", "create", true, true, true, true⟩,
        ⟨"b.txt", "", true, true, true, true⟩]).2
      = some (.wrap "extension .txt" (.base ErrUnknownMigrationType)) ∧
    ((Service.mk [.custom 9] none).LoadMigrations ⟨"f",
        [⟨"0001_a.sql", "create", true, true, true, true⟩,
         ⟨"b.txt", "", true, true, true, true⟩], false⟩).1.migrations
      = (Service.mk [.custom 9] none).migrations
          ++ (loadResults "f" [⟨"0001_a.sql", "create", true, true, true, true⟩,
                ⟨"b.txt", "", true, true, true, true⟩]).1 :=
  ⟨by decide, by decide,
    (C3_failed_load_partial_install (Service.mk [.custom 9] none)
      ⟨"f", [⟨"0001_a.sql", "create", true, true, true, true⟩,
        ⟨"b.txt", "", true, true, true, true⟩], false⟩
      (.wrap "extension .txt" (.base ErrUnknownMigrationType))
      (by decide) (by decide) (by decide)).2⟩

/-- Claim C9: loading from an empty (zero-length) source path returns nil
and adds no migrations: the set afterwards is exactly the stable
re-sort of the set from before (same migrations, none added). -/
theorem C9_empty_path_yields_nothing (svc : Service) (entries : List DirEntry) (rdf : Bool) :
    (svc.LoadMigrations ⟨"", entries, rdf⟩).2 = none ∧
    (svc.LoadMigrations ⟨"", entries, rdf⟩).1.migrations = sortByVersion svc.migrations ∧
    ((svc.LoadMigrations ⟨"", entries, rdf⟩).1.migrations).Perm svc.migrations := by
  refine ⟨rfl, rfl, ?_⟩
  show (sortByVersion svc.migrations).Perm svc.migrations
  exact sortByVersion_perm svc.migrations

/-! ## Claims about name validation and SQLMigration.Run -/

/-- Counterexample to claim C7: the code's regex is unanchored, its label
group is the lazy `(.*?)` (which may be empty), and it is matched against
the joined path rather than the entry name.  So the entry `1_.sql` —
rejected by the anchored `^(\d+)_(.+)\.(sql|so)$` — is accepted with
version 1, and the entry `bad.sql` (no digits at all) is accepted with
version 0 when the folder is named `0_dir`, instead of failing with
`InvalidMigrationFileName`. -/
theorem C7_counterexample :
    specNameAccepted "1_.sql" = false ∧
    loadEntry "f" ⟨"1_.sql", "body", true, true, true, true⟩
      = .ok (.sql "f/1_.sql" "body" 1) ∧
    specNameAccepted "bad.sql" = false ∧
    loadEntry "0_dir" ⟨"bad.sql", "body", true, true, true, true⟩
      = .ok (.sql "0_dir/bad.sql" "body" 0) := by
  decide

/-- Claim C7 (amended): a `.sql`/`.so` entry is accepted exactly when the
unanchored lazy pattern `(\d+)_(.*?)\.(sql|so)` finds a match somewhere
in the joined path `folder/name` (so the label may be empty, the digits
need not start the name, and a `digits_` sequence in the folder name
qualifies), the version being the digit group of the leftmost match; a
recognized-suffix entry whose joined path has no match fails the load
with `InvalidMigrationFileName`, and an entry with any other suffix fails
the whole load with `UnknownMigrationType`. -/
theorem C7_acceptance_characterization (folder : String) (e : DirEntry) :
    (∀ n, findVersionDigits (pathJoin folder e.name).toList = some n →
      toLowerStr (pathExt e.name) = ".sql" → e.readable = true →
      loadEntry folder e = .ok (.sql (pathJoin folder e.name) e.content (goAtoi n))) ∧
    (findVersionDigits (pathJoin folder e.name).toList = none →
      (toLowerStr (pathExt e.name) = ".sql" ∨ toLowerStr (pathExt e.name) = ".so") →
      ∃ err, loadEntry folder e = .error err ∧ err.isBase ErrInvalidMigrationFileName = true) ∧
    (toLowerStr (pathExt e.name) ≠ ".sql" → toLowerStr (pathExt e.name) ≠ ".so" →
      ∃ err, loadEntry folder e = .error err ∧ err.isBase ErrUnknownMigrationType = true) := by
  refine ⟨?_, ?_, ?_⟩
  · intro n hfind hext hread
    have hfind' : findVersionDigits (pathJoin folder e.name).data = some n := hfind
    simp [loadEntry, hext, NewSQLMigrationFile, hfind', hread]
  · intro hfind hext
    have hfind' : findVersionDigits (pathJoin folder e.name).data = none := hfind
    rcases hext with hext | hext
    · exact ⟨.base ErrInvalidMigrationFileName,
        by simp [loadEntry, hext, NewSQLMigrationFile, hfind'], by simp [GoErr.isBase]⟩
    · refine ⟨.base ErrInvalidMigrationFileName, ?_, by simp [GoErr.isBase]⟩
      by_cases hsql : toLowerStr (pathExt e.name) = ".sql"
      · simp [loadEntry, hsql, NewSQLMigrationFile, hfind']
      · simp [loadEntry, hsql, hext, NewPluginMigration, hfind']
  · intro h1 h2
    exact ⟨.wrap ("extension " ++ toLowerStr (pathExt e.name)) (.base ErrUnknownMigrationType),
      by simp [loadEntry, h1, h2], by simp [GoErr.isBase]⟩

/-- Witness for C7 (amended) at the well-formed entry `0001_x.sql` in
folder `f`: the pattern finds version 1 and the entry is accepted as a
declarative migration with that version. -/
theorem C7_acceptance_characterization_witness :
    findVersionDigits (pathJoin "f" "0001_x.sql").toList = some 1 ∧
    toLowerStr (pathExt "0001_x.sql") = ".sql" ∧
    loadEntry "f" ⟨"0001_x.sql", "stmt", true, true, true, true⟩
      = .ok (.sql (pathJoin "f" "0001_x.sql") "stmt" (goAtoi 1)) :=
  ⟨by decide, by decide,
    (C7_acceptance_characterization "f" ⟨"0001_x.sql", "stmt", true, true, true, true⟩).1
      1 (by decide) (by decide) (by decide)⟩

/-- Claim C8: `SQLMigration.Run` registers the statement under
`DB_MIGRATION_<version>`; when registration fails it returns nil having
executed nothing (registry and transaction untouched); when registration
succeeds the statement is executed against the supplied transaction and
the call's error is exactly the execution error (nil on success). -/
theorem C8_register_soft_noop (statement : String) (version : Int)
    (registry : List (String × String)) (execFails : Bool) (txLog : List String) :
    SQLMigration.Run statement version registry true execFails txLog
      = (none, registry, txLog) ∧
    SQLMigration.Run statement version registry false execFails txLog
      = ((if execFails then some (.base "exec error") else none),
          registry ++ [("DB_MIGRATION_" ++ toString version, statement)],
          txLog ++ [statement]) := by
  exact ⟨rfl, rfl⟩

end Migrate
